import Mathlib

/-!
Verification development for the fixed batch copy operator
(`src/execution/operator/persistent/physical_fixed_batch_copy.cpp`).

The operator's global sink state, task queue, repartitioner, flusher and
memory-backpressure logic are embedded as executable Lean functions over a
`GState` record.  External collaborators (the chunk collection, the copy
function adapter, the temporary memory broker) live outside this repository's
sources and are modelled from the specification at their interfaces.
-/

namespace FixedBatchCopy

/-- The vector width of the engine (`STANDARD_VECTOR_SIZE`), the default used
by the repository. -/
def STANDARD_VECTOR_SIZE : Nat := 2048

/-- Modelled from the spec: a Chunk is a fixed-width row-group with a row
count; its byte footprint is tracked separately (the collection's
`size_in_bytes` is monotone in appended data). -/
structure Chunk where
  rows : Nat
  bytes : Nat
deriving DecidableEq, Repr

/-- Modelled from the spec: the Chunk Collection (`ColumnDataCollection` in the
source, which lives outside the provided sources) is an ordered sequence of
chunks supporting append, iteration, `Count()` (total rows) and
`SizeInBytes()`. -/
structure Collection where
  chunks : List Chunk
deriving DecidableEq, Repr

/-- Total row count of a collection (`ColumnDataCollection::Count`). -/
def Collection.count (c : Collection) : Nat := (c.chunks.map Chunk.rows).sum

/-- Byte size of a collection (`ColumnDataCollection::SizeInBytes`), modelled
as the sum of the byte footprints of the appended chunks (monotone in
appends, as the spec requires). -/
def Collection.sizeInBytes (c : Collection) : Nat := (c.chunks.map Chunk.bytes).sum

/-- Appending one chunk to a collection. -/
def Collection.appendChunk (c : Collection) (ch : Chunk) : Collection :=
  ⟨c.chunks ++ [ch]⟩

/-- A freshly initialized, empty collection. -/
def Collection.empty : Collection := ⟨[]⟩

/-- The fatal internal errors the operator can raise (each corresponds to a
`throw InternalException(...)` in the source).  `fuelExhausted` is a modelling
artifact used by the bounded-recursion encodings of the source's loops; it is
proved not to occur on the runs considered. -/
inductive CopyError where
  | batchOutOfOrder
  | duplicateBatchIndex
  | unexecutedTasks
  | incompleteFile
  | memoryUsageDecreased
  | missingCallbacks
  | fuelExhausted
deriving DecidableEq, Repr

/-- Decidable equality of `Except` results, used to evaluate concrete runs. -/
instance {ε α : Type} [DecidableEq ε] [DecidableEq α] : DecidableEq (Except ε α) := fun x y =>
  match x, y with
  | .error a, .error b =>
    if h : a = b then .isTrue (by rw [h]) else .isFalse (by simp [h])
  | .ok a, .ok b =>
    if h : a = b then .isTrue (by rw [h]) else .isFalse (by simp [h])
  | .error _, .ok _ => .isFalse (by simp)
  | .ok _, .error _ => .isFalse (by simp)

/-- `FixedPreparedBatchData`: the prepared artifact is opaque; the engine keeps
its captured `memory_usage`.  The `rows` field is ghost bookkeeping recording
how many rows went into `prepare_batch`, so that flush observations can be
stated. -/
structure FixedPreparedBatchData where
  memory_usage : Nat
  rows : Nat
deriving DecidableEq, Repr

/-- The two concrete `BatchCopyTask` subclasses: `PrepareBatchTask` (carrying
the batch index and the collection) and `RepartitionedFlushTask`. -/
inductive BatchCopyTask where
  | prepareBatch (batch_index : Nat) (collection : Collection)
  | repartitionedFlush
deriving DecidableEq, Repr

/-- `FixedBatchCopyGlobalState`.  Ordered maps (`std::map`) are modelled as
association lists sorted by key.  `blocked_tasks` records only the number of
parked producers.  `requests` is a ghost log of the sizes passed to the memory
broker's `SetRemainingSize`, and `flush_log` a ghost log of
`(batch_index, rows)` for every `flush_batch` invocation; `finalized` records
whether `copy_to_finalize` ran. -/
structure GState where
  batch_size : Nat
  raw_batches : List (Nat × Collection)
  batch_data : List (Nat × FixedPreparedBatchData)
  scheduled_batch_index : Nat
  flushed_batch_index : Nat
  any_flushing : Bool
  any_finished : Bool
  unflushed_memory_usage : Nat
  min_batch_index : Nat
  available_memory : Nat
  can_increase_memory : Bool
  minimum_memory_per_thread : Nat
  blocked_tasks : Nat
  task_queue : List BatchCopyTask
  rows_copied : Nat
  requests : List Nat
  flush_log : List (Nat × Nat)
  finalized : Bool
deriving DecidableEq, Repr

/-- Modelled from the spec: the Memory Broker interface.  `queryMaxMemory` is
`BufferManager::GetQueryMaxMemory`, and `broker r` is the reservation reported
by `GetReservation()` after `SetRemainingSize(r)`. -/
structure MemEnv where
  queryMaxMemory : Nat
  broker : Nat → Nat

/-- `FixedBatchCopyGlobalState::SetMemorySize`: cap the request at a quarter of
the query's maximum memory, return untouched if the capped request does not
exceed the current reservation, otherwise ask the broker and adopt whatever it
grants (disabling future growth if the grant did not grow). -/
def SetMemorySize (env : MemEnv) (g : GState) (size : Nat) : GState :=
  let total_max_memory := env.queryMaxMemory
  let request_cap := total_max_memory / 4
  let size := min size request_cap
  if size ≤ g.available_memory then g
  else
    let next_reservation := env.broker size
    let g := { g with requests := g.requests ++ [size] }
    let g := if g.available_memory ≥ next_reservation then
               { g with can_increase_memory := false }
             else g
    { g with available_memory := next_reservation }

/-- `FixedBatchCopyGlobalState::IncreaseMemory`. -/
def IncreaseMemory (env : MemEnv) (g : GState) : GState :=
  if !g.can_increase_memory then g
  else SetMemorySize env g (g.available_memory * 2)

/-- `FixedBatchCopyGlobalState::OutOfMemory` (the `DUCKDB_ALTERNATIVE_VERIFY`
build flag is not set).  Returns the boolean outcome together with the state,
since a growth attempt mutates the reservation. -/
def OutOfMemory (env : MemEnv) (g : GState) (batch_index : Nat) : Bool × GState :=
  if g.unflushed_memory_usage ≥ g.available_memory then
    if batch_index > g.min_batch_index then
      let g := IncreaseMemory env g
      if g.unflushed_memory_usage ≥ g.available_memory then (true, g)
      else (false, g)
    else (false, g)
  else (false, g)

/-- `FixedBatchCopyGlobalState::UpdateMinBatchIndex`: monotone max; on strict
advance all blocked tasks are unblocked. -/
def UpdateMinBatchIndex (g : GState) (current_min_batch_index : Nat) : GState :=
  if g.min_batch_index ≥ current_min_batch_index then g
  else
    let new_batch_index := max g.min_batch_index current_min_batch_index
    if new_batch_index ≠ g.min_batch_index then
      { g with min_batch_index := new_batch_index, blocked_tasks := 0 }
    else g

/-- `FixedBatchCopyGlobalState::UnblockTasks`: wake every parked producer and
report whether any was woken. -/
def UnblockTasks (g : GState) : GState × Bool :=
  if g.blocked_tasks = 0 then (g, false)
  else ({ g with blocked_tasks := 0 }, true)

/-- `FixedBatchCopyGlobalState::MaxThreads`: request memory for the upstream
thread hint, then cap concurrency by the granted reservation. -/
def MaxThreads (env : MemEnv) (g : GState) (source_max_threads : Nat) : Nat × GState :=
  let g := SetMemorySize env g (source_max_threads * g.minimum_memory_per_thread)
  (min source_max_threads (g.available_memory / g.minimum_memory_per_thread + 1), g)

/-- The flush loop of `PhysicalFixedBatchCopy::FlushBatchData`, with fuel
bounding the number of iterations (each iteration removes the smallest
prepared entry).  The branch order is exactly the source's: the
not-yet-ready test (`!=`) precedes the out-of-order test (`<`). -/
def FlushLoop : Nat → GState → Except CopyError GState
  | 0, _ => .error .fuelExhausted
  | fuel + 1, g =>
    match g.batch_data with
    | [] => .ok g
    | entry :: rest =>
      if entry.1 ≠ g.flushed_batch_index then .ok g
      else if entry.1 < g.flushed_batch_index then .error .batchOutOfOrder
      else
        FlushLoop fuel
          { g with
            batch_data := rest,
            flush_log := g.flush_log ++ [(entry.1, entry.2.rows)],
            unflushed_memory_usage := g.unflushed_memory_usage - entry.2.memory_usage,
            flushed_batch_index := g.flushed_batch_index + 1 }

/-- `PhysicalFixedBatchCopy::FlushBatchData`.  The `min_index` argument is
accepted (as in the source) but not consulted by the loop.  The
`any_flushing` CAS admits one flusher; the scoped guard clears it on exit. -/
def FlushBatchData (g : GState) (min_index : Nat) : Except CopyError GState :=
  if g.any_flushing then .ok g
  else
    match FlushLoop (g.batch_data.length + 1) { g with any_flushing := true } with
    | .ok g1 => .ok { g1 with any_flushing := false }
    | .error e => .error e

/-- Insertion into an ordered map modelled as a sorted association list;
`none` reports a duplicate key (which `std::map::insert` rejects). -/
def sortedInsert {α : Type} (k : Nat) (v : α) :
    List (Nat × α) → Option (List (Nat × α))
  | [] => some [(k, v)]
  | (k1, v1) :: rest =>
    if k < k1 then some ((k, v) :: (k1, v1) :: rest)
    else if k = k1 then none
    else (sortedInsert k v rest).map (fun r => (k1, v1) :: r)

/-- `FixedBatchCopyGlobalState::AddBatchData`: store a prepared artifact;
a duplicate batch index is fatal. -/
def AddBatchData (g : GState) (batch_index : Nat) (memory_usage rows : Nat) :
    Except CopyError GState :=
  match sortedInsert batch_index ⟨memory_usage, rows⟩ g.batch_data with
  | none => .error .duplicateBatchIndex
  | some bd => .ok { g with batch_data := bd }

/-- `PhysicalFixedBatchCopy::AddRawBatchData`: publish a producer's collection
into the raw map; a duplicate batch index is fatal. -/
def AddRawBatchData (g : GState) (batch_index : Nat) (collection : Collection) :
    Except CopyError GState :=
  match sortedInsert batch_index collection g.raw_batches with
  | none => .error .duplicateBatchIndex
  | some rb => .ok { g with raw_batches := rb }

/-- Execution of one queued task (`PhysicalFixedBatchCopy::ExecuteTask`):
pop the front of the task queue and run it.  A `PrepareBatchTask` captures the
collection's byte size, runs `prepare_batch` (opaque), stores the artifact,
and enqueues a `RepartitionedFlushTask` when its batch index is the next to
flush.  A `RepartitionedFlushTask` runs `FlushBatchData` with `min_index = 0`.
Returns whether a task was executed. -/
def ExecuteTask (g : GState) : Except CopyError (Bool × GState) :=
  match g.task_queue with
  | [] => .ok (false, g)
  | .prepareBatch batch_index collection :: rest =>
    match AddBatchData { g with task_queue := rest } batch_index
        collection.sizeInBytes collection.count with
    | .error e => .error e
    | .ok g1 =>
      if batch_index = g1.flushed_batch_index then
        .ok (true, { g1 with task_queue := g1.task_queue ++ [.repartitionedFlush] })
      else .ok (true, g1)
  | .repartitionedFlush :: rest =>
    match FlushBatchData { g with task_queue := rest } 0 with
    | .error e => .error e
    | .ok g1 => .ok (true, g1)

/-- Termination measure for draining the task queue: a prepare task can
enqueue at most one flush task, and flush tasks enqueue nothing. -/
def taskMeasure : List BatchCopyTask → Nat
  | [] => 0
  | .prepareBatch _ _ :: rest => 2 + taskMeasure rest
  | .repartitionedFlush :: rest => 1 + taskMeasure rest

/-- Fueled loop for `PhysicalFixedBatchCopy::ExecuteTasks`. -/
def ExecuteTasksFuel : Nat → GState → Except CopyError GState
  | 0, g => if g.task_queue.isEmpty then .ok g else .error .fuelExhausted
  | fuel + 1, g =>
    match ExecuteTask g with
    | .error e => .error e
    | .ok (false, g1) => .ok g1
    | .ok (true, g1) => ExecuteTasksFuel fuel g1

/-- `PhysicalFixedBatchCopy::ExecuteTasks`: drain the task queue. -/
def ExecuteTasks (g : GState) : Except CopyError GState :=
  ExecuteTasksFuel (taskMeasure g.task_queue) g

/-- `CorrectSizeForBatch`: a collection is approximately batch-sized when its
row count is within one vector width of the desired size (strictly). -/
def CorrectSizeForBatch (collection_size desired_size : Nat) : Bool :=
  Int.natAbs ((collection_size : Int) - (desired_size : Int)) < STANDARD_VECTOR_SIZE

/-- The local state of one `RepartitionBatches` call: the current accumulator
collection, the running `scheduled_batch_index`, and the prepare tasks created
by this call (recorded as `(batch_index, collection)` pairs, in creation
order; they are appended to the global task queue when the call ends). -/
structure RepState where
  current : Option Collection
  scheduled : Nat
  newTasks : List (Nat × Collection)
deriving DecidableEq, Repr

/-- Create a `PrepareBatchTask` for a finished output collection, assigning
`scheduled_batch_index++`. -/
def scheduleBatch (st : RepState) (c : Collection) : RepState :=
  { st with scheduled := st.scheduled + 1, newTasks := st.newTasks ++ [(st.scheduled, c)] }

/-- The inner chunk loop of `RepartitionBatches`: append each chunk of a
source collection to the accumulator, scheduling the accumulator and starting
a fresh one every time it reaches the desired batch size. -/
def appendChunks (bs : Nat) : List Chunk → RepState → RepState
  | [], st => st
  | ch :: rest, st =>
    if ((st.current.getD Collection.empty).appendChunk ch).count < bs then
      appendChunks bs rest
        { st with current := some ((st.current.getD Collection.empty).appendChunk ch) }
    else
      appendChunks bs rest
        { scheduleBatch st ((st.current.getD Collection.empty).appendChunk ch) with
            current := some Collection.empty }

/-- The per-source-collection step of `RepartitionBatches`: with no open
accumulator, an approximately batch-sized collection is scheduled as-is, a
smaller one becomes the accumulator, and a larger one is split chunk-by-chunk
starting from an empty accumulator; with an open accumulator the collection's
chunks are appended into it. -/
def processCollection (bs : Nat) (st : RepState) (col : Collection) : RepState :=
  match st.current with
  | some _ => appendChunks bs col.chunks st
  | none =>
    if CorrectSizeForBatch col.count bs then scheduleBatch st col
    else if col.count < bs then { st with current := some col }
    else appendChunks bs col.chunks { st with current := some Collection.empty }

/-- The wrap-up of `RepartitionBatches`: a non-empty trailing accumulator is
scheduled when this is the final repartition or it is approximately
batch-sized; otherwise it is handed back for re-insertion into the raw map. -/
def finishRepartition (bs : Nat) (final : Bool) (st : RepState) :
    RepState × Option Collection :=
  match st.current with
  | none => (st, none)
  | some cur =>
    if cur.count > 0 then
      if final || CorrectSizeForBatch cur.count bs then
        (scheduleBatch { st with current := none } cur, none)
      else ({ st with current := none }, some cur)
    else ({ st with current := none }, none)

/-- The candidate-row scan of `RepartitionBatches`: sum `Count()` over raw
entries until the first key at or beyond `min_index` (the map iterates in
ascending key order, so this is a `takeWhile`). -/
def candidateRows (raw : List (Nat × Collection)) (min_index : Nat) : Nat :=
  ((raw.takeWhile (fun e => e.1 < min_index)).map (fun e => e.2.count)).sum

/-- `std::map::operator[]` assignment on the sorted association list:
replace the value at the key, or insert it in order. -/
def mapSet (k : Nat) (v : Collection) :
    List (Nat × Collection) → List (Nat × Collection)
  | [] => [(k, v)]
  | (k1, v1) :: rest =>
    if k < k1 then (k, v) :: (k1, v1) :: rest
    else if k = k1 then (k, v) :: rest
    else (k1, v1) :: mapSet k v rest

/-- `PhysicalFixedBatchCopy::RepartitionBatches`: merge/split the raw
collections below `min_index` into batch-sized collections and enqueue
`PrepareBatchTask`s for them. -/
def RepartitionBatches (g : GState) (min_index : Nat) (final : Bool) : GState :=
  if g.raw_batches.isEmpty then g
  else if !final && g.any_finished then g
  else if !final && candidateRows g.raw_batches min_index < g.batch_size then g
  else
    let drained := g.raw_batches.takeWhile (fun e => e.1 < min_index)
    let remaining := g.raw_batches.dropWhile (fun e => e.1 < min_index)
    let max_batch_index := ((drained.map Prod.fst).getLast?).getD 0
    let st0 : RepState := ⟨none, g.scheduled_batch_index, []⟩
    let st1 := (drained.map Prod.snd).foldl (processCollection g.batch_size) st0
    let p := finishRepartition g.batch_size final st1
    { g with
      raw_batches :=
        match p.2 with
        | some cur => mapSet max_batch_index cur remaining
        | none => remaining,
      scheduled_batch_index := p.1.scheduled,
      task_queue := g.task_queue ++
        p.1.newTasks.map (fun e => BatchCopyTask.prepareBatch e.1 e.2) }

/-- The per-producer task mode (`FixedBatchCopyState` in the source). -/
inductive FixedBatchCopyCurrentTask where
  | SINKING_DATA
  | PROCESSING_TASKS
deriving DecidableEq, Repr

/-- The outcome of `Sink` (`SinkResultType`). -/
inductive SinkResultType where
  | NEED_MORE_INPUT
  | BLOCKED
deriving DecidableEq, Repr

/-- `FixedBatchCopyLocalState` plus the partition info the executor attaches
to the local state (`partition_info.batch_index` and
`partition_info.min_batch_index`). -/
structure LState where
  collection : Option Collection
  batch_index : Option Nat
  rows_copied : Nat
  local_memory_usage : Nat
  current_task : FixedBatchCopyCurrentTask
  partition_batch_index : Nat
  partition_min_batch_index : Nat
deriving DecidableEq, Repr

/-- The append tail of `PhysicalFixedBatchCopy::Sink`: lazily initialize the
producer's collection, append the chunk, account rows, and publish the
positive byte-size delta to the global unflushed counter (a decrease is a
fatal internal error). -/
def sinkAppend (g : GState) (l : LState) (chunk : Chunk) :
    Except CopyError (SinkResultType × GState × LState) :=
  let l :=
    match l.collection with
    | none =>
      { l with collection := some Collection.empty, local_memory_usage := 0,
               batch_index := some l.partition_batch_index }
    | some _ => l
  let col := (l.collection.getD Collection.empty).appendChunk chunk
  let l := { l with rows_copied := l.rows_copied + chunk.rows, collection := some col }
  let new_memory_usage := col.sizeInBytes
  if new_memory_usage > l.local_memory_usage then
    .ok (.NEED_MORE_INPUT,
         { g with unflushed_memory_usage :=
             g.unflushed_memory_usage + (new_memory_usage - l.local_memory_usage) },
         { l with local_memory_usage := new_memory_usage })
  else if new_memory_usage < l.local_memory_usage then
    .error .memoryUsageDecreased
  else
    .ok (.NEED_MORE_INPUT, g, { l with local_memory_usage := new_memory_usage })

/-- The second half of `PhysicalFixedBatchCopy::Sink` (from the
`batch_index > min_batch_index` check at the sinking stage onward):
publish the producer's local min, re-check the memory budget — and on OOM
switch to task processing and re-enter `Sink` (the `recurse` argument). -/
def sinkPhase2 (env : MemEnv)
    (recurse : GState → LState → Except CopyError (SinkResultType × GState × LState))
    (g : GState) (l : LState) (chunk : Chunk) :
    Except CopyError (SinkResultType × GState × LState) :=
  if l.partition_batch_index > g.min_batch_index then
    let g := UpdateMinBatchIndex g l.partition_min_batch_index
    let p := OutOfMemory env g l.partition_batch_index
    if p.1 then recurse p.2 { l with current_task := .PROCESSING_TASKS }
    else sinkAppend p.2 l chunk
  else sinkAppend g l chunk

/-- `PhysicalFixedBatchCopy::Sink`.  The fuel bounds the source's
self-recursion (`return Sink(context, chunk, input)`), which in any execution
re-enters at most twice. -/
def Sink (env : MemEnv) :
    Nat → GState → LState → Chunk → Except CopyError (SinkResultType × GState × LState)
  | 0, _, _, _ => .error .fuelExhausted
  | fuel + 1, g, l, chunk =>
    if l.current_task = .PROCESSING_TASKS then
      match ExecuteTasks g with
      | .error e => .error e
      | .ok g1 =>
        match FlushBatchData g1 g1.min_batch_index with
        | .error e => .error e
        | .ok g2 =>
          if l.partition_batch_index > g2.min_batch_index then
            let p := OutOfMemory env g2 l.partition_batch_index
            if p.1 then
              if l.partition_batch_index > p.2.min_batch_index then
                .ok (.BLOCKED, { p.2 with blocked_tasks := p.2.blocked_tasks + 1 }, l)
              else
                sinkPhase2 env (fun g l => Sink env fuel g l chunk) p.2
                  { l with current_task := .SINKING_DATA } chunk
            else
              sinkPhase2 env (fun g l => Sink env fuel g l chunk) p.2
                { l with current_task := .SINKING_DATA } chunk
          else
            sinkPhase2 env (fun g l => Sink env fuel g l chunk) g2
              { l with current_task := .SINKING_DATA } chunk
    else sinkPhase2 env (fun g l => Sink env fuel g l chunk) g l chunk

/-- `PhysicalFixedBatchCopy::NextBatch`: called when the upstream announces
the new batch index `new_batch_index` (the partition info now carries it and
the new producer-local minimum `new_min_batch_index`).  A non-empty collection
is published to the raw map under the producer's previous batch index, a
non-final repartition runs, parked producers are woken (otherwise one task is
executed and a flush attempted inline), the global minimum advances, and a
fresh collection is started. -/
def NextBatch (g : GState) (l : LState)
    (new_batch_index new_min_batch_index : Nat) :
    Except CopyError (GState × LState) := do
  let l := { l with partition_batch_index := new_batch_index,
                    partition_min_batch_index := new_min_batch_index }
  let g ←
    match l.collection with
    | some c =>
      if c.count > 0 then do
        let min_batch_index := l.partition_min_batch_index
        let g ← AddRawBatchData g (l.batch_index.getD 0) c
        let g := RepartitionBatches g min_batch_index false
        let p := UnblockTasks g
        if !p.2 then do
          let q ← ExecuteTask p.1
          FlushBatchData q.2 q.2.min_batch_index
        else pure p.1
      else pure g
    | none => pure g
  let g := UpdateMinBatchIndex g l.partition_min_batch_index
  let l := { l with batch_index := some l.partition_batch_index,
                    collection := some Collection.empty, local_memory_usage := 0 }
  pure (g, l)

/-- `PhysicalFixedBatchCopy::Combine`: fold the producer's counters into the
global state, mark that a producer finished, publish its local minimum, and
drain the task queue. -/
def Combine (g : GState) (l : LState) : Except CopyError GState :=
  let g := { g with rows_copied := g.rows_copied + l.rows_copied, any_finished := true }
  let g := UpdateMinBatchIndex g l.partition_min_batch_index
  ExecuteTasks g

/-- `PhysicalFixedBatchCopy::FinalFlush`: leftover tasks are fatal; flush with
`min_index` the maximum 64-bit signed value; a mismatch between the scheduled
and flushed batch indices afterwards is fatal ("incomplete file"); then the
adapter's optional `copy_to_finalize` runs. -/
def FinalFlush (hasFinalize : Bool) (g : GState) : Except CopyError GState :=
  if g.task_queue.length ≠ 0 then .error .unexecutedTasks
  else
    match FlushBatchData g (2 ^ 63 - 1) with
    | .error e => .error e
    | .ok g1 =>
      if g1.scheduled_batch_index ≠ g1.flushed_batch_index then .error .incompleteFile
      else if hasFinalize then .ok { g1 with finalized := true }
      else .ok g1

/-- The worker loop of `ProcessRemainingBatchesTask`:
`while (ExecuteTask) FlushBatchData(0)`. -/
def ProcessRemainingFuel : Nat → GState → Except CopyError GState
  | 0, g => if g.task_queue.isEmpty then .ok g else .error .fuelExhausted
  | fuel + 1, g =>
    match ExecuteTask g with
    | .error e => .error e
    | .ok (false, g1) => .ok g1
    | .ok (true, g1) =>
      match FlushBatchData g1 0 with
      | .error e => .error e
      | .ok g2 => ProcessRemainingFuel fuel g2

/-- `PhysicalFixedBatchCopy::Finalize`: a final repartition with an infinite
minimum index; with at most one task left everything runs inline, otherwise
the remaining-batches event drains the queue; either way `FinalFlush` ends
the operation. -/
def Finalize (hasFinalize : Bool) (g : GState) : Except CopyError GState :=
  let g := RepartitionBatches g (2 ^ 63 - 1) true
  if g.task_queue.length ≤ 1 then
    match ExecuteTasks g with
    | .error e => .error e
    | .ok g1 => FinalFlush hasFinalize g1
  else
    match ProcessRemainingFuel (taskMeasure g.task_queue) g with
    | .error e => .error e
    | .ok g1 => FinalFlush hasFinalize g1

/-- Which of the copy function adapter's callbacks are non-null. -/
structure CopyFunction where
  flush_batch : Bool
  prepare_batch : Bool
  desired_batch_size : Bool
  copy_to_finalize : Bool
deriving DecidableEq, Repr

/-- The callback presence check of the `PhysicalFixedBatchCopy` constructor:
it requires `flush_batch`, `prepare_batch` and `desired_batch_size`. -/
def constructFixedBatchCopy (f : CopyFunction) : Except CopyError Unit :=
  if !f.flush_batch || !f.prepare_batch || !f.desired_batch_size then
    .error .missingCallbacks
  else .ok ()

/-- The batch-sizing band of the specification: within one vector width of
the desired batch size (inclusive, with truncated subtraction on `Nat`). -/
def inBand (bs n : Nat) : Prop :=
  bs - STANDARD_VECTOR_SIZE ≤ n ∧ n ≤ bs + STANDARD_VECTOR_SIZE

instance (bs n : Nat) : Decidable (inBand bs n) := by
  unfold inBand; infer_instance

/-- Observation of a task: its batch index and the row count it carries. -/
def prepareTaskSummary : BatchCopyTask → Nat × Nat
  | .prepareBatch i c => (i, c.count)
  | .repartitionedFlush => (0, 0)

/-- A baseline quiescent global state used by the concrete scenarios below
(`desired_batch_size = 1000`, ample memory, nothing buffered). -/
def baseG : GState :=
  { batch_size := 1000, raw_batches := [], batch_data := [],
    scheduled_batch_index := 0, flushed_batch_index := 0,
    any_flushing := false, any_finished := false,
    unflushed_memory_usage := 0, min_batch_index := 0,
    available_memory := 2 ^ 30, can_increase_memory := true,
    minimum_memory_per_thread := 4 * 1024 * 1024 * 3,
    blocked_tasks := 0, task_queue := [], rows_copied := 0,
    requests := [], flush_log := [], finalized := false }

/-- A fresh producer-local state on batch index 0. -/
def baseL : LState :=
  { collection := none, batch_index := none, rows_copied := 0,
    local_memory_usage := 0, current_task := .SINKING_DATA,
    partition_batch_index := 0, partition_min_batch_index := 0 }

/-- A permissive memory broker granting exactly what is asked. -/
def idEnv : MemEnv := ⟨2 ^ 40, fun r => r⟩

/-- A memory broker that denies every request (grants zero), with a query
memory maximum of 400 bytes (request cap 100). -/
def denyEnv : MemEnv := ⟨400, fun _ => 0⟩

/-- A global state that is over budget: 20 bytes buffered against a
10-byte reservation. -/
def c7WG : GState :=
  { baseG with available_memory := 10, unflushed_memory_usage := 20 }

/-- 3500 rows delivered as seven 500-row chunks (chunk boundaries aligned
with the 1000-row target). -/
def c3Collection : Collection := ⟨List.replicate 7 ⟨500, 100⟩⟩

/-- 3500 rows delivered as standard vector-sized chunks (2048 + 1452). -/
def c3StdCollection : Collection := ⟨[⟨2048, 400⟩, ⟨1452, 300⟩]⟩

/-- The chunk sunk by the oversize-collection scenario: 500 rows. -/
def c3Chunk : Chunk := ⟨500, 100⟩

/-- One `Sink` call of the oversize-collection scenario. -/
def c3SinkStep (p : GState × LState) : Except CopyError (GState × LState) := do
  let r ← Sink idEnv 3 p.1 p.2 c3Chunk
  pure (r.2.1, r.2.2)

/-- The oversize-collection scenario, executed end to end: a single producer
sinks batch 0 as seven 500-row chunks (3500 rows), announces batch 1
(`NextBatch` with producer-local minimum 1), combines, and finalizes. -/
def c3Run : Except CopyError GState := do
  let p ← c3SinkStep (baseG, baseL) >>= c3SinkStep >>= c3SinkStep >>= c3SinkStep
            >>= c3SinkStep >>= c3SinkStep >>= c3SinkStep
  let p ← NextBatch p.1 p.2 1 1
  let g ← Combine p.1 p.2
  Finalize true g

/-- A global state whose smallest prepared entry sits below the flushed
index: batch 0 is prepared while `flushed_batch_index` is already 1. -/
def c1G : GState :=
  { baseG with batch_data := [(0, ⟨7, 9⟩)], flushed_batch_index := 1 }

/-- A global state with one raw batch and a finished producer. -/
def c8WG : GState :=
  { baseG with raw_batches := [(0, c3StdCollection)], any_finished := true }

/-- A global state with an unexecuted task left in the queue. -/
def c6GT : GState := { baseG with task_queue := [.repartitionedFlush] }

/-- Invariant of the repartition loop: the open accumulator (if any) holds
strictly fewer rows than the batch size, and every prepare task created so
far is within one vector of the target. -/
def repInv (bs : Nat) (st : RepState) : Prop :=
  (∀ c, st.current = some c → c.count < bs) ∧
  (∀ e ∈ st.newTasks, inBand bs e.2.count)

/-! ## Theorems -/

/-- Appending a chunk adds its rows to the collection's count. -/
theorem Collection.count_appendChunk (c : Collection) (ch : Chunk) :
    (c.appendChunk ch).count = c.count + ch.rows := by
  unfold Collection.appendChunk Collection.count
  simp

/-- The empty collection holds no rows. -/
theorem Collection.count_empty : Collection.empty.count = 0 := rfl

/-- C2, counterexample: a copy function with `flush_batch`, `prepare_batch`
and `desired_batch_size` present but `copy_to_finalize` null passes the
constructor's check, so "all four must be non-null" fails: one of the four
callbacks is missing and construction does not fail fatally. -/
theorem c2_counterexample :
    constructFixedBatchCopy ⟨true, true, true, false⟩ = .ok () ∧
    (⟨true, true, true, false⟩ : CopyFunction).copy_to_finalize = false := by
  exact ⟨rfl, rfl⟩

/-- C2, amended: construction fails fatally exactly when one of the three
callbacks `flush_batch`, `prepare_batch`, `desired_batch_size` is missing;
`copy_to_finalize` is optional. -/
theorem c2_required_callbacks (f : CopyFunction) :
    constructFixedBatchCopy f = .error .missingCallbacks ↔
      (f.flush_batch = false ∨ f.prepare_batch = false ∨
        f.desired_batch_size = false) := by
  obtain ⟨fb, pb, db, cf⟩ := f
  cases fb <;> cases pb <;> cases db <;> simp [constructFixedBatchCopy]

/-- C9: `SetMemorySize` leaves the state untouched when the capped request
does not exceed the current reservation, and otherwise logs exactly one
broker request for the capped size and adopts the broker's grant as the new
`available_memory` — even when the grant is below the old reservation, as
the third conjunct exhibits (so `available_memory` is not monotone). -/
theorem c9_set_memory_size (env : MemEnv) (g : GState) (size : Nat) :
    (min size (env.queryMaxMemory / 4) ≤ g.available_memory →
      SetMemorySize env g size = g) ∧
    (g.available_memory < min size (env.queryMaxMemory / 4) →
      (SetMemorySize env g size).available_memory
          = env.broker (min size (env.queryMaxMemory / 4)) ∧
        (SetMemorySize env g size).requests
          = g.requests ++ [min size (env.queryMaxMemory / 4)]) ∧
    (∃ env1 g1 s1,
      g1.available_memory < min s1 (env1.queryMaxMemory / 4) ∧
      (SetMemorySize env1 g1 s1).available_memory < g1.available_memory) := by
  refine ⟨?_, ?_, ⟨denyEnv, c7WG, 1000, by decide, by decide⟩⟩
  · intro h
    unfold SetMemorySize
    simp [h]
  · intro h
    unfold SetMemorySize
    rw [if_neg (by omega)]
    by_cases hb : g.available_memory ≥ env.broker (min size (env.queryMaxMemory / 4)) <;>
      simp [hb]

/-- C9, witness: the untouched case at a concrete input (a 5-byte request
against the 2^30-byte baseline reservation), and the broker-call case at a
concrete input (a 1000-byte request against a 10-byte reservation and a
denying broker). -/
theorem c9_witness :
    (min 5 (idEnv.queryMaxMemory / 4) ≤ baseG.available_memory ∧
      SetMemorySize idEnv baseG 5 = baseG) ∧
    (c7WG.available_memory < min 1000 (denyEnv.queryMaxMemory / 4) ∧
      (SetMemorySize denyEnv c7WG 1000).available_memory
          = denyEnv.broker (min 1000 (denyEnv.queryMaxMemory / 4)) ∧
      (SetMemorySize denyEnv c7WG 1000).requests
          = c7WG.requests ++ [min 1000 (denyEnv.queryMaxMemory / 4)]) :=
  ⟨⟨by decide, (c9_set_memory_size idEnv baseG 5).1 (by decide)⟩,
   ⟨by decide, ((c9_set_memory_size denyEnv c7WG 1000).2.1 (by decide)).1,
    ((c9_set_memory_size denyEnv c7WG 1000).2.1 (by decide)).2⟩⟩

/-- C10: for a positive upstream thread hint, `MaxThreads` returns a thread
count between 1 and the hint, because the memory-based cap
`available_memory / minimum_memory_per_thread + 1` is at least 1. -/
theorem c10_max_threads_bounds (env : MemEnv) (g : GState) (s : Nat)
    (hs : 1 ≤ s) :
    1 ≤ (MaxThreads env g s).1 ∧ (MaxThreads env g s).1 ≤ s := by
  unfold MaxThreads
  exact ⟨le_min hs (Nat.succ_le_succ (Nat.zero_le _)), min_le_left _ _⟩

/-- C10, witness: the bounds at the concrete hint 3 (also with zero available
memory, where the cap is `0 / mmpt + 1 = 1`). -/
theorem c10_witness :
    (1 ≤ 3 ∧
      1 ≤ (MaxThreads idEnv baseG 3).1 ∧ (MaxThreads idEnv baseG 3).1 ≤ 3) ∧
    (1 ≤ (MaxThreads denyEnv { baseG with available_memory := 0 } 3).1 ∧
      (MaxThreads denyEnv { baseG with available_memory := 0 } 3).1 ≤ 3) :=
  ⟨⟨by decide, c10_max_threads_bounds idEnv baseG 3 (by decide)⟩,
   c10_max_threads_bounds denyEnv { baseG with available_memory := 0 } 3 (by decide)⟩

/-- C7: (1) once growth has been denied, `IncreaseMemory` is a no-op and
issues no broker request; (2) when growth is still allowed and the capped
doubled size exceeds the reservation, exactly one broker request is issued
for `min(available_memory * 2, query_max_memory / 4)`, the grant is adopted,
and `can_increase_memory` drops to `false` exactly when the grant did not
grow; (3) the out-of-memory check for a batch index above the minimum
performs exactly this growth attempt and then re-checks the predicate. -/
theorem c7_memory_growth (env : MemEnv) (g : GState) :
    (g.can_increase_memory = false → IncreaseMemory env g = g) ∧
    (g.can_increase_memory = true →
      g.available_memory < min (g.available_memory * 2) (env.queryMaxMemory / 4) →
      (IncreaseMemory env g).requests
          = g.requests ++ [min (g.available_memory * 2) (env.queryMaxMemory / 4)] ∧
        (IncreaseMemory env g).available_memory
          = env.broker (min (g.available_memory * 2) (env.queryMaxMemory / 4)) ∧
        ((IncreaseMemory env g).can_increase_memory = false ↔
          env.broker (min (g.available_memory * 2) (env.queryMaxMemory / 4))
            ≤ g.available_memory)) ∧
    (∀ b : Nat, g.unflushed_memory_usage ≥ g.available_memory →
      b > g.min_batch_index →
      OutOfMemory env g b
        = (decide ((IncreaseMemory env g).unflushed_memory_usage
              ≥ (IncreaseMemory env g).available_memory),
           IncreaseMemory env g)) := by
  refine ⟨?_, ?_, ?_⟩
  · intro h
    unfold IncreaseMemory
    simp [h]
  · intro hc h
    unfold IncreaseMemory SetMemorySize
    rw [if_neg (by simp [hc])]
    rw [if_neg (by omega)]
    by_cases hb : g.available_memory
        ≥ env.broker (min (g.available_memory * 2) (env.queryMaxMemory / 4)) <;>
      simp [hb, hc]
  · intro b hoom hgt
    unfold OutOfMemory
    rw [if_pos hoom, if_pos hgt]
    by_cases h2 : (IncreaseMemory env g).unflushed_memory_usage
        ≥ (IncreaseMemory env g).available_memory <;> simp [h2]

/-- C7, witness: against the denying broker, an over-budget state with a
10-byte reservation issues one request for `min(20, 100) = 20`, is granted 0,
drops `can_increase_memory`, and from then on `IncreaseMemory` is a no-op (no
further requests). -/
theorem c7_witness :
    (c7WG.can_increase_memory = true ∧
      c7WG.available_memory
        < min (c7WG.available_memory * 2) (denyEnv.queryMaxMemory / 4) ∧
      (IncreaseMemory denyEnv c7WG).requests
        = c7WG.requests ++ [min (c7WG.available_memory * 2) (denyEnv.queryMaxMemory / 4)] ∧
      (IncreaseMemory denyEnv c7WG).can_increase_memory = false) ∧
    ((IncreaseMemory denyEnv c7WG).can_increase_memory = false ∧
      IncreaseMemory denyEnv (IncreaseMemory denyEnv c7WG)
        = IncreaseMemory denyEnv c7WG) := by
  have h2 := (c7_memory_growth denyEnv c7WG).2.1 (by decide) (by decide)
  have hfalse : (IncreaseMemory denyEnv c7WG).can_increase_memory = false :=
    h2.2.2.mpr (by decide)
  exact ⟨⟨by decide, by decide, h2.1, hfalse⟩,
    ⟨hfalse, (c7_memory_growth denyEnv (IncreaseMemory denyEnv c7WG)).1 hfalse⟩⟩

/-- C6: `FinalFlush` fails fatally when unexecuted tasks remain; with an
empty queue it flushes with `min_index` the maximum signed-64-bit value and
then fails fatally ("incomplete file") exactly when the scheduled and flushed
batch indices disagree, succeeding otherwise. -/
theorem c6_final_flush (hf : Bool) (g : GState) :
    (g.task_queue ≠ [] → FinalFlush hf g = .error .unexecutedTasks) ∧
    (g.task_queue = [] → ∀ g1, FlushBatchData g (2 ^ 63 - 1) = .ok g1 →
      (g1.scheduled_batch_index ≠ g1.flushed_batch_index →
        FinalFlush hf g = .error .incompleteFile) ∧
      (g1.scheduled_batch_index = g1.flushed_batch_index →
        ∃ g2, FinalFlush hf g = .ok g2)) := by
  constructor
  · intro h
    unfold FinalFlush
    rw [if_pos (by simpa [List.length_eq_zero] using h)]
  · intro h g1 hflush
    unfold FinalFlush
    rw [if_neg (by simp [h])]
    simp only [hflush]
    constructor
    · intro hne
      rw [if_pos hne]
    · intro he
      rw [if_neg (fun hn => hn he)]
      cases hf
      · exact ⟨g1, rfl⟩
      · exact ⟨{ g1 with finalized := true }, rfl⟩

/-- C6, witness: a leftover task makes `FinalFlush` fail at a concrete state,
and at the quiescent baseline state (empty queue, nothing prepared,
`scheduled = flushed = 0`) it succeeds. -/
theorem c6_witness :
    (c6GT.task_queue ≠ [] ∧ FinalFlush true c6GT = .error .unexecutedTasks) ∧
    (baseG.task_queue = [] ∧ FlushBatchData baseG (2 ^ 63 - 1) = .ok baseG ∧
      baseG.scheduled_batch_index = baseG.flushed_batch_index ∧
      ∃ g2, FinalFlush true baseG = .ok g2) := by
  have hflush : FlushBatchData baseG (2 ^ 63 - 1) = .ok baseG := by decide
  exact ⟨⟨by decide, (c6_final_flush true c6GT).1 (by decide)⟩,
    ⟨rfl, hflush, rfl,
      ((c6_final_flush true baseG).2 rfl baseG hflush).2 rfl⟩⟩

/-- The ordering-violation branch of the flush loop is dead code: reaching it
requires the smallest key to equal `flushed_batch_index` (the preceding `!=`
test) and to be below it at the same time. -/
theorem FlushLoop_ne_batchOutOfOrder (fuel : Nat) :
    ∀ g : GState, FlushLoop fuel g ≠ .error .batchOutOfOrder := by
  induction fuel with
  | zero => intro g h; exact absurd h (by simp [FlushLoop])
  | succ n ih =>
    intro g h
    unfold FlushLoop at h
    split at h
    · exact absurd h (by simp)
    · split at h
      · exact absurd h (by simp)
      · split at h
        · rename_i hne hlt
          exact hne (by omega)
        · exact ih _ h

/-- Restoring the cleared `any_flushing` flag returns the original state. -/
theorem GState_reset_any_flushing (g : GState) (h : g.any_flushing = false) :
    ({ ({ g with any_flushing := true } : GState) with any_flushing := false }
      : GState) = g := by
  cases g
  simp_all

/-- The flush loop stops at once (successfully) when the smallest prepared
key — if any — differs from the flushed index. -/
theorem FlushLoop_break (fuel : Nat) (g : GState)
    (h : ∀ e rest, g.batch_data = e :: rest → e.1 ≠ g.flushed_batch_index) :
    FlushLoop (fuel + 1) g = .ok g := by
  unfold FlushLoop
  split
  · rfl
  · rename_i e rest heq
    rw [if_pos (h e rest heq)]

/-- `FlushBatchData` returns the state unchanged when no prepared entry is
ready (the smallest key, if any, differs from the flushed index). -/
theorem FlushBatchData_break (g : GState) (m : Nat) (hf : g.any_flushing = false)
    (h : ∀ e rest, g.batch_data = e :: rest → e.1 ≠ g.flushed_batch_index) :
    FlushBatchData g m = .ok g := by
  unfold FlushBatchData
  rw [if_neg (by simp [hf])]
  rw [FlushLoop_break g.batch_data.length { g with any_flushing := true }
    (fun e rest heq => h e rest heq)]
  exact congrArg Except.ok (GState_reset_any_flushing g hf)

/-- C1, amended: when the smallest prepared key differs from
`flushed_batch_index` — whether smaller or larger — the flush loop exits
without flushing and without error (as it does on an empty map), and the
internal ordering-violation error can never be raised, because the
inequality test precedes the out-of-order test. -/
theorem c1_flush_exit_behavior (g : GState) (m : Nat) :
    (g.any_flushing = false → g.batch_data = [] → FlushBatchData g m = .ok g) ∧
    (∀ e, g.any_flushing = false → g.batch_data.head? = some e →
      e.1 ≠ g.flushed_batch_index → FlushBatchData g m = .ok g) ∧
    FlushBatchData g m ≠ .error .batchOutOfOrder := by
  refine ⟨?_, ?_, ?_⟩
  · intro hf hbd
    apply FlushBatchData_break g m hf
    intro e rest heq
    rw [hbd] at heq
    exact absurd heq (by simp)
  · intro e0 hf hbd hne
    apply FlushBatchData_break g m hf
    intro e rest heq
    rw [heq] at hbd
    simp only [List.head?_cons, Option.some.injEq] at hbd
    rw [hbd]
    exact hne
  · unfold FlushBatchData
    split
    · simp
    · cases hres : FlushLoop (g.batch_data.length + 1)
          { g with any_flushing := true } with
      | ok g1 => simp
      | error e =>
        intro h
        have he : e = CopyError.batchOutOfOrder := by simpa using h
        subst he
        exact FlushLoop_ne_batchOutOfOrder _ _ hres

/-- C1, witness: at a concrete state whose only prepared key (5) exceeds
`flushed_batch_index = 0`, the flush exits without flushing and no ordering
error is possible. -/
theorem c1_witness :
    (({ baseG with batch_data := [(5, ⟨7, 9⟩)] } : GState).any_flushing = false ∧
      ({ baseG with batch_data := [(5, ⟨7, 9⟩)] } : GState).batch_data.head?
        = some (5, ⟨7, 9⟩) ∧
      (5 ≠ ({ baseG with batch_data := [(5, ⟨7, 9⟩)] } : GState).flushed_batch_index) ∧
      FlushBatchData { baseG with batch_data := [(5, ⟨7, 9⟩)] } 0
        = .ok { baseG with batch_data := [(5, ⟨7, 9⟩)] }) ∧
    FlushBatchData { baseG with batch_data := [(5, ⟨7, 9⟩)] } 0
      ≠ .error .batchOutOfOrder :=
  ⟨⟨by decide, by decide, by decide,
    (c1_flush_exit_behavior { baseG with batch_data := [(5, ⟨7, 9⟩)] } 0).2.1
      (5, ⟨7, 9⟩) (by decide) (by decide) (by decide)⟩,
   (c1_flush_exit_behavior { baseG with batch_data := [(5, ⟨7, 9⟩)] } 0).2.2⟩

/-- C1, counterexample: in `c1G` the smallest prepared key (0) is strictly
below `flushed_batch_index` (1), yet `FlushBatchData` returns without any
fatal error — and without flushing anything — contradicting the claim that
every such state makes the call raise the ordering-violation error. -/
theorem c1_counterexample :
    c1G.batch_data.head? = some (0, ⟨7, 9⟩) ∧
    c1G.flushed_batch_index = 1 ∧
    FlushBatchData c1G 0 = .ok c1G := by
  exact ⟨by decide, by decide, by decide⟩

/-- C3, counterexample: batch 0 holds 3500 rows delivered as standard
vector-sized chunks (2048 + 1452).  On `next_batch(1)` the repartitioner
schedules two prepare tasks of 2048 and 1452 rows — not three 1000-row
outputs plus a 500-row remainder — because outputs are cut only when the
accumulator crosses the desired size after a whole chunk is appended. -/
theorem c3_counterexample :
    c3StdCollection.count = 3500 ∧
    (RepartitionBatches { baseG with raw_batches := [(0, c3StdCollection)] }
        1 false).task_queue.map prepareTaskSummary = [(0, 2048), (1, 1452)] ∧
    (RepartitionBatches { baseG with raw_batches := [(0, c3StdCollection)] }
        1 false).scheduled_batch_index = 2 := by
  exact ⟨by decide, by decide, by decide⟩

/-- C3, amended: when the 3500 rows of batch 0 arrive in chunks whose
boundaries align with the 1000-row target (seven 500-row chunks), the
repartition at `next_batch(1)` schedules four collections of 1000, 1000,
1000 and 500 rows with batch indices 0, 1, 2, 3; the 500-row remainder,
being within one vector of the target, is scheduled immediately rather than
deferred to finalize.  Running the scenario end to end (sink ×7, next_batch,
combine, finalize) flushes exactly these four batches in order, 3500 rows in
total.  (With standard 2048-row chunks the same scenario instead yields two
outputs of 2048 and 1452 rows.) -/
theorem c3_amended_split :
    c3Collection.count = 3500 ∧
    (RepartitionBatches { baseG with raw_batches := [(0, c3Collection)] }
        1 false).task_queue.map prepareTaskSummary
      = [(0, 1000), (1, 1000), (2, 1000), (3, 500)] ∧
    c3Run.toOption.map GState.flush_log
      = some [(0, 1000), (1, 1000), (2, 1000), (3, 500)] ∧
    c3Run.toOption.map GState.rows_copied = some 3500 ∧
    c3Run.toOption.map GState.flushed_batch_index = some 4 ∧
    c3Run.toOption.map GState.scheduled_batch_index = some 4 := by
  exact ⟨by decide, by decide, by decide, by decide, by decide, by decide⟩

/-- On a key-sorted association list, stopping at the first key at or beyond
`m` visits exactly the entries whose key is below `m`. -/
theorem takeWhile_lt_eq_filter (m : Nat) :
    ∀ l : List (Nat × Collection), l.Pairwise (fun a b => a.1 < b.1) →
      l.takeWhile (fun e => decide (e.1 < m)) = l.filter (fun e => decide (e.1 < m)) := by
  intro l
  induction l with
  | nil => intro _; rfl
  | cons x xs ih =>
    intro hp
    rw [List.pairwise_cons] at hp
    rw [List.takeWhile_cons, List.filter_cons]
    by_cases hx : x.1 < m
    · rw [if_pos (by simpa using hx), if_pos (by simpa using hx), ih hp.2]
    · rw [if_neg (by simpa using hx), if_neg (by simpa using hx)]
      rw [eq_comm, List.filter_eq_nil_iff]
      intro y hy
      have := hp.1 y hy
      simp only [decide_eq_true_eq]
      omega

/-- C8: a non-final `RepartitionBatches` call leaves the state entirely
unchanged (raw batches, scheduled index, task queue and all) whenever a
producer has already finished, or whenever the rows buffered below
`min_index` do not reach the desired batch size. -/
theorem c8_repartition_frame (g : GState) (min_index : Nat)
    (hsorted : g.raw_batches.Pairwise (fun a b => a.1 < b.1))
    (h : g.any_finished = true ∨
      ((g.raw_batches.filter (fun e => decide (e.1 < min_index))).map
          (fun e => e.2.count)).sum < g.batch_size) :
    RepartitionBatches g min_index false = g := by
  unfold RepartitionBatches
  by_cases he : g.raw_batches.isEmpty
  · rw [if_pos he]
  · rw [if_neg he]
    by_cases haf : g.any_finished
    · rw [if_pos (by simp [haf])]
    · rcases h with h | h
      · exact absurd h haf
      · have hc : candidateRows g.raw_batches min_index < g.batch_size := by
          unfold candidateRows
          rw [takeWhile_lt_eq_filter min_index g.raw_batches hsorted]
          exact h
        rw [if_neg (by simp [haf]), if_pos (by simp [hc])]

/-- C8, witness: with one 3500-row raw batch below `min_index = 5` but
`any_finished` set, the call returns the state unchanged; and at a state
with only 300 rows buffered (below the 1000-row target) it also returns
unchanged. -/
theorem c8_witness :
    (c8WG.any_finished = true ∧ RepartitionBatches c8WG 5 false = c8WG) ∧
    RepartitionBatches { baseG with raw_batches := [(0, ⟨[⟨300, 60⟩]⟩)] } 5 false
      = { baseG with raw_batches := [(0, ⟨[⟨300, 60⟩]⟩)] } :=
  ⟨⟨by decide,
    c8_repartition_frame c8WG 5 (by simp [c8WG, baseG]) (Or.inl (by decide))⟩,
   c8_repartition_frame { baseG with raw_batches := [(0, ⟨[⟨300, 60⟩]⟩)] } 5
     (by simp [baseG]) (Or.inr (by decide))⟩

/-- The flush loop never changes the minimum batch index. -/
theorem FlushLoop_min (fuel : Nat) :
    ∀ g g1, FlushLoop fuel g = .ok g1 → g1.min_batch_index = g.min_batch_index := by
  induction fuel with
  | zero => intro g g1 h; exact absurd h (by simp [FlushLoop])
  | succ n ih =>
    intro g g1 h
    unfold FlushLoop at h
    split at h
    · simp only [Except.ok.injEq] at h
      rw [← h]
    · split at h
      · simp only [Except.ok.injEq] at h
        rw [← h]
      · split at h
        · simp at h
        · have := ih _ g1 h
          exact this

/-- `FlushBatchData` never changes the minimum batch index. -/
theorem FlushBatchData_min (g : GState) (m : Nat) :
    ∀ g1, FlushBatchData g m = .ok g1 → g1.min_batch_index = g.min_batch_index := by
  intro g1 h
  unfold FlushBatchData at h
  split at h
  · simp only [Except.ok.injEq] at h
    rw [← h]
  · cases hres : FlushLoop (g.batch_data.length + 1) { g with any_flushing := true } with
    | ok g2 =>
      rw [hres] at h
      simp only [Except.ok.injEq] at h
      rw [← h]
      have := FlushLoop_min _ _ g2 hres
      exact this
    | error e => rw [hres] at h; simp at h

/-- Executing one queued task never changes the minimum batch index. -/
theorem ExecuteTask_min (g : GState) :
    ∀ b g1, ExecuteTask g = .ok (b, g1) → g1.min_batch_index = g.min_batch_index := by
  intro b g1 h
  unfold ExecuteTask at h
  split at h
  · simp only [Except.ok.injEq, Prod.mk.injEq] at h
    rw [← h.2]
  · rename_i batch_index collection rest heq
    split at h
    · simp at h
    · rename_i g2 hadd
      have hg2 : g2.min_batch_index = g.min_batch_index := by
        unfold AddBatchData at hadd
        split at hadd
        · simp at hadd
        · simp only [Except.ok.injEq] at hadd
          rw [← hadd]
      split at h <;>
        · simp only [Except.ok.injEq, Prod.mk.injEq] at h
          rw [← h.2]
          exact hg2
  · rename_i rest heq
    split at h
    · simp at h
    · rename_i g2 hfl
      simp only [Except.ok.injEq, Prod.mk.injEq] at h
      rw [← h.2]
      have := FlushBatchData_min _ _ g2 hfl
      exact this

/-- Draining the task queue never changes the minimum batch index. -/
theorem ExecuteTasksFuel_min (n : Nat) :
    ∀ g g1, ExecuteTasksFuel n g = .ok g1 → g1.min_batch_index = g.min_batch_index := by
  induction n with
  | zero =>
    intro g g1 h
    unfold ExecuteTasksFuel at h
    split at h
    · simp only [Except.ok.injEq] at h
      rw [← h]
    · simp at h
  | succ n ih =>
    intro g g1 h
    unfold ExecuteTasksFuel at h
    split at h
    · simp at h
    · rename_i g2 heq
      simp only [Except.ok.injEq] at h
      rw [← h]
      exact ExecuteTask_min g false g2 heq
    · rename_i g2 heq
      rw [ih g2 g1 h]
      exact ExecuteTask_min g true g2 heq

/-- `ExecuteTasks` never changes the minimum batch index. -/
theorem ExecuteTasks_min (g g1 : GState) (h : ExecuteTasks g = .ok g1) :
    g1.min_batch_index = g.min_batch_index :=
  ExecuteTasksFuel_min _ g g1 h

/-- Every successful exit of the append tail of `Sink` reports
`NEED_MORE_INPUT`. -/
theorem sinkAppend_ok (g : GState) (l : LState) (ch : Chunk) :
    ∀ r g1 l1, sinkAppend g l ch = .ok (r, g1, l1) → r = .NEED_MORE_INPUT := by
  intro r g1 l1 h
  cases hc : l.collection with
  | none =>
    simp only [sinkAppend, hc] at h
    split at h
    · simp_all
    · split at h <;> simp_all
  | some c =>
    simp only [sinkAppend, hc] at h
    split at h
    · simp_all
    · split at h <;> simp_all

/-- C5: a producer whose batch index equals the global minimum is never
declared out of memory (`OutOfMemory` returns `false` and leaves the state
untouched), and `Sink` can never return `BLOCKED` for it: every successful
`Sink` call returns `NEED_MORE_INPUT`. -/
theorem c5_min_batch_not_blocked (env : MemEnv) (fuel : Nat) (g : GState)
    (l : LState) (chunk : Chunk)
    (hb : l.partition_batch_index = g.min_batch_index) :
    OutOfMemory env g l.partition_batch_index = (false, g) ∧
    (∀ r g1 l1, Sink env fuel g l chunk = .ok (r, g1, l1) →
      r = .NEED_MORE_INPUT) := by
  constructor
  · unfold OutOfMemory
    rw [hb]
    by_cases h1 : g.unflushed_memory_usage ≥ g.available_memory
    · rw [if_pos h1, if_neg (lt_irrefl _)]
    · rw [if_neg h1]
  · intro r g1 l1 h
    cases fuel with
    | zero => exact absurd h (by simp [Sink])
    | succ n =>
      unfold Sink at h
      by_cases hct : l.current_task = .PROCESSING_TASKS
      · rw [if_pos hct] at h
        split at h
        · simp at h
        · rename_i gA hE
          split at h
          · simp at h
          · rename_i gB hF
            have hminA : gA.min_batch_index = g.min_batch_index :=
              ExecuteTasks_min g gA hE
            have hminB : gB.min_batch_index = g.min_batch_index := by
              rw [FlushBatchData_min gA _ gB hF, hminA]
            rw [if_neg (by omega)] at h
            unfold sinkPhase2 at h
            rw [if_neg (show ¬(({ l with current_task := .SINKING_DATA }
              : LState).partition_batch_index > gB.min_batch_index) by
                show ¬(l.partition_batch_index > gB.min_batch_index)
                omega)] at h
            exact sinkAppend_ok _ _ _ r g1 l1 h
      · rw [if_neg hct] at h
        unfold sinkPhase2 at h
        rw [if_neg (show ¬(l.partition_batch_index > g.min_batch_index) by
          omega)] at h
        exact sinkAppend_ok _ _ _ r g1 l1 h

/-- C5, witness: the baseline producer sits exactly at the minimum batch
index; `OutOfMemory` declines to declare it OOM even in an over-budget state,
and its `Sink` call returns `NEED_MORE_INPUT`. -/
theorem c5_witness :
    (baseL.partition_batch_index = c7WG.min_batch_index ∧
      OutOfMemory denyEnv c7WG baseL.partition_batch_index = (false, c7WG)) ∧
    (baseL.partition_batch_index = baseG.min_batch_index ∧
      ∀ r g1 l1, Sink idEnv 3 baseG baseL c3Chunk = .ok (r, g1, l1) →
        r = .NEED_MORE_INPUT) :=
  ⟨⟨by decide,
    (c5_min_batch_not_blocked denyEnv 3 c7WG baseL c3Chunk (by decide)).1⟩,
   ⟨by decide,
    (c5_min_batch_not_blocked idEnv 3 baseG baseL c3Chunk (by decide)).2⟩⟩

/-- The chunk loop preserves the repartition invariant: whenever the
accumulator reaches the batch size it is scheduled, and since the previous
accumulator was below the target and chunks hold at most one vector of rows,
the scheduled collection lands within one vector of the target. -/
theorem appendChunks_inv (bs : Nat) (hbs : 0 < bs) :
    ∀ (chunks : List Chunk) (st : RepState),
      (∀ ch ∈ chunks, ch.rows ≤ STANDARD_VECTOR_SIZE) →
      repInv bs st → repInv bs (appendChunks bs chunks st) := by
  intro chunks
  induction chunks with
  | nil => intro st _ hinv; exact hinv
  | cons ch rest ih =>
    intro st hch hinv
    have hbase : (st.current.getD Collection.empty).count < bs := by
      cases hcur : st.current with
      | none => simpa [Collection.count_empty] using hbs
      | some c => simpa using hinv.1 c hcur
    have hchch : ch.rows ≤ STANDARD_VECTOR_SIZE := hch ch (List.mem_cons_self _ _)
    have hcount : ((st.current.getD Collection.empty).appendChunk ch).count
        = (st.current.getD Collection.empty).count + ch.rows :=
      Collection.count_appendChunk _ _
    unfold appendChunks
    by_cases hlt : ((st.current.getD Collection.empty).appendChunk ch).count < bs
    · rw [if_pos hlt]
      apply ih _ (fun c hc => hch c (List.mem_cons_of_mem _ hc))
      constructor
      · intro c hc
        simp only [Option.some.injEq] at hc
        rw [← hc]
        exact hlt
      · exact hinv.2
    · rw [if_neg hlt]
      apply ih _ (fun c hc => hch c (List.mem_cons_of_mem _ hc))
      constructor
      · intro c hc
        simp only [Option.some.injEq] at hc
        rw [← hc]
        simpa [Collection.count_empty] using hbs
      · intro e he
        simp only [scheduleBatch, List.mem_append, List.mem_singleton] at he
        rcases he with he | he
        · exact hinv.2 e he
        · rw [he]
          show inBand bs ((st.current.getD Collection.empty).appendChunk ch).count
          unfold inBand
          unfold STANDARD_VECTOR_SIZE at *
          omega

/-- Each source collection preserves the repartition invariant: as-is
scheduling only happens within one vector of the target, smaller collections
seed the accumulator, larger ones are split by the chunk loop. -/
theorem processCollection_inv (bs : Nat) (hbs : 0 < bs) (st : RepState)
    (col : Collection)
    (hch : ∀ ch ∈ col.chunks, ch.rows ≤ STANDARD_VECTOR_SIZE)
    (hinv : repInv bs st) : repInv bs (processCollection bs st col) := by
  unfold processCollection
  cases hcur : st.current with
  | some c => exact appendChunks_inv bs hbs col.chunks st hch hinv
  | none =>
    by_cases hcs : CorrectSizeForBatch col.count bs = true
    · rw [if_pos hcs]
      constructor
      · intro c hc
        simp only [scheduleBatch] at hc
        exact hinv.1 c hc
      · intro e he
        simp only [scheduleBatch, List.mem_append, List.mem_singleton] at he
        rcases he with he | he
        · exact hinv.2 e he
        · rw [he]
          show inBand bs col.count
          simp only [CorrectSizeForBatch, decide_eq_true_eq] at hcs
          unfold inBand
          unfold STANDARD_VECTOR_SIZE at *
          omega
    · rw [if_neg hcs]
      by_cases hsm : col.count < bs
      · rw [if_pos hsm]
        constructor
        · intro c hc
          simp only [Option.some.injEq] at hc
          rw [← hc]
          exact hsm
        · exact hinv.2
      · rw [if_neg hsm]
        apply appendChunks_inv bs hbs col.chunks _ hch
        constructor
        · intro c hc
          simp only [Option.some.injEq] at hc
          rw [← hc]
          simpa [Collection.count_empty] using hbs
        · exact hinv.2

/-- The fold over all drained collections preserves the invariant. -/
theorem foldl_processCollection_inv (bs : Nat) (hbs : 0 < bs) :
    ∀ (cols : List Collection) (st : RepState),
      (∀ col ∈ cols, ∀ ch ∈ col.chunks, ch.rows ≤ STANDARD_VECTOR_SIZE) →
      repInv bs st → repInv bs (cols.foldl (processCollection bs) st) := by
  intro cols
  induction cols with
  | nil => intro st _ hinv; exact hinv
  | cons c cs ih =>
    intro st hch hinv
    rw [List.foldl_cons]
    exact ih _ (fun col hc ch h2 => hch col (List.mem_cons_of_mem _ hc) ch h2)
      (processCollection_inv bs hbs st c
        (fun ch h2 => hch c (List.mem_cons_self _ _) ch h2) hinv)

/-- The wrap-up step: every task except possibly the last one it appends is
within one vector of the target, and in a non-final call even the appended
remainder is (it is only scheduled when approximately batch-sized). -/
theorem finishRepartition_spec (bs : Nat) (final : Bool) (st : RepState)
    (hinv : repInv bs st) :
    (∀ i, i + 1 < (finishRepartition bs final st).1.newTasks.length →
      ∀ e, (finishRepartition bs final st).1.newTasks.get? i = some e →
        inBand bs e.2.count) ∧
    (final = false → ∀ e ∈ (finishRepartition bs final st).1.newTasks,
      inBand bs e.2.count) := by
  unfold finishRepartition
  split
  · exact ⟨fun i _ e he => hinv.2 e (List.get?_mem he),
      fun _ e he => hinv.2 e he⟩
  · rename_i cur hcur
    split
    · rename_i hpos
      split
      · rename_i hor
        by_cases hcs : CorrectSizeForBatch cur.count bs = true
        · have hall : ∀ e ∈ (scheduleBatch { st with current := none } cur).newTasks,
              inBand bs e.2.count := by
            intro e he
            simp only [scheduleBatch, List.mem_append, List.mem_singleton] at he
            rcases he with he | he
            · exact hinv.2 e he
            · rw [he]
              show inBand bs cur.count
              simp only [CorrectSizeForBatch, decide_eq_true_eq] at hcs
              unfold inBand
              unfold STANDARD_VECTOR_SIZE at *
              omega
          exact ⟨fun i _ e he => hall e (List.get?_mem he), fun _ e he => hall e he⟩
        · have hfin : final = true := by
            rcases Bool.or_eq_true_iff.mp hor with hf | hf
            · exact hf
            · exact absurd hf hcs
          constructor
          · intro i hi e he
            simp only [scheduleBatch, List.length_append, List.length_singleton] at hi
            have hilt : i < st.newTasks.length := by omega
            simp only [scheduleBatch] at he
            rw [List.get?_append hilt] at he
            exact hinv.2 e (List.get?_mem he)
          · intro hf
            rw [hfin] at hf
            exact absurd hf (by simp)
      · exact ⟨fun i _ e he => hinv.2 e (List.get?_mem he),
          fun _ e he => hinv.2 e he⟩
    · exact ⟨fun i _ e he => hinv.2 e (List.get?_mem he),
        fun _ e he => hinv.2 e he⟩

/-- C4: in every `RepartitionBatches` call (on chunks of at most one vector
of rows each, with a positive desired batch size), every prepare task it
creates — except possibly the last one, which can only fall outside the band
in the final call — carries a row count within
`[batch_size − STANDARD_VECTOR_SIZE, batch_size + STANDARD_VECTOR_SIZE]`;
and the as-is scheduling tolerance is exactly
`|count − desired| < STANDARD_VECTOR_SIZE`. -/
theorem c4_batch_sizing (g : GState) (min_index : Nat) (final : Bool)
    (hbs : 0 < g.batch_size)
    (hch : ∀ e ∈ g.raw_batches, ∀ ch ∈ e.2.chunks,
      ch.rows ≤ STANDARD_VECTOR_SIZE) :
    (∃ new : List (Nat × Collection),
      (RepartitionBatches g min_index final).task_queue
        = g.task_queue ++ new.map (fun e => BatchCopyTask.prepareBatch e.1 e.2) ∧
      (∀ i, i + 1 < new.length → ∀ e, new.get? i = some e →
        inBand g.batch_size e.2.count) ∧
      (final = false → ∀ e ∈ new, inBand g.batch_size e.2.count)) ∧
    (∀ c d : Nat, CorrectSizeForBatch c d = true ↔
      Int.natAbs ((c : Int) - (d : Int)) < STANDARD_VECTOR_SIZE) := by
  constructor
  · unfold RepartitionBatches
    by_cases he : g.raw_batches.isEmpty
    · rw [if_pos he]
      exact ⟨[], by simp, by simp, by simp⟩
    · rw [if_neg he]
      split
      · exact ⟨[], by simp, by simp, by simp⟩
      · split
        · exact ⟨[], by simp, by simp, by simp⟩
        · have hinv : repInv g.batch_size
              (((g.raw_batches.takeWhile (fun e => e.1 < min_index)).map
                Prod.snd).foldl (processCollection g.batch_size)
                ⟨none, g.scheduled_batch_index, []⟩) := by
            apply foldl_processCollection_inv g.batch_size hbs
            · intro col hcol
              rw [List.mem_map] at hcol
              obtain ⟨e, hemem, rfl⟩ := hcol
              exact hch e ((List.takeWhile_prefix _).subset hemem)
            · exact ⟨fun c hc => by simp at hc, fun e he => by simp at he⟩
          have hspec := finishRepartition_spec g.batch_size final _ hinv
          exact ⟨_, rfl, hspec.1, hspec.2⟩
  · intro c d
    simp [CorrectSizeForBatch]

/-- C4, witness: the hypotheses and the conclusion at the concrete state
holding one 3500-row raw batch of 500-row chunks with
`desired_batch_size = 1000`. -/
theorem c4_witness :
    (0 < ({ baseG with raw_batches := [(0, c3Collection)] } : GState).batch_size ∧
      (∀ e ∈ ({ baseG with raw_batches := [(0, c3Collection)] } : GState).raw_batches,
        ∀ ch ∈ e.2.chunks, ch.rows ≤ STANDARD_VECTOR_SIZE)) ∧
    ((∃ new : List (Nat × Collection),
      (RepartitionBatches { baseG with raw_batches := [(0, c3Collection)] }
          1 false).task_queue
        = ({ baseG with raw_batches := [(0, c3Collection)] } : GState).task_queue
            ++ new.map (fun e => BatchCopyTask.prepareBatch e.1 e.2) ∧
      (∀ i, i + 1 < new.length → ∀ e, new.get? i = some e →
        inBand ({ baseG with raw_batches := [(0, c3Collection)] } : GState).batch_size
          e.2.count) ∧
      (false = false → ∀ e ∈ new,
        inBand ({ baseG with raw_batches := [(0, c3Collection)] } : GState).batch_size
          e.2.count)) ∧
    (∀ c d : Nat, CorrectSizeForBatch c d = true ↔
      Int.natAbs ((c : Int) - (d : Int)) < STANDARD_VECTOR_SIZE)) :=
  ⟨⟨by decide, by decide⟩,
   c4_batch_sizing { baseG with raw_batches := [(0, c3Collection)] } 1 false
     (by decide) (by decide)⟩

end FixedBatchCopy
